import Mathlib

/-!
Verification of wheatserver's configuration subsystem (src/config.c).

C strings are modelled as `List Char` without embedded NUL bytes: the end of the
list is the NUL terminator.  The helper library wstr.c (an sds-style string
library) is not part of the sources; its few operations used by config.c
(`wstrStrip`, `wstrNewSplit`, `wstrCatLen`) are modelled from the spec, and each
such definition says so in its doc comment.  Everything else is translated
directly from src/config.c.
-/

/-- ASCII lowercasing of one byte, as C `tolower` behaves on the ASCII inputs
used by `strncasecmp`. -/
def lowerChar (c : Char) : Char :=
  if 'A' ≤ c && c ≤ 'Z' then Char.ofNat (c.toNat + 32) else c

/-- Lowercase a whole C string. -/
def lowerL (s : List Char) : List Char := s.map lowerChar

/-- Convert a Lean string literal to the `List Char` model of a C string. -/
def s2l (s : String) : List Char := s.toList

/-- Equality outcome of C `strncasecmp(a, b, n) == 0`: compare at most `n`
bytes case-insensitively, stopping early at a NUL terminator (the end of
either list, since the model has no embedded NULs). -/
def strncaseEq : List Char → List Char → Nat → Bool
  | _, _, 0 => true
  | [], [], _ + 1 => true
  | [], _ :: _, _ + 1 => false
  | _ :: _, [], _ + 1 => false
  | a :: as, b :: bs, n + 1 => (lowerChar a == lowerChar b) && strncaseEq as bs n

/-- One row of an enum table: `struct enumIdName { int id; char *name; }`.
A `none` name is the NULL sentinel row. -/
structure EnumIdName where
  id : Int
  name : Option (List Char)
deriving DecidableEq

/-- The `Verbose` table from config.c lines 9-13, including its `{-1, NULL}`
sentinel row.  The numeric ids `WHEAT_DEBUG` .. `WHEAT_WARNING` come from
wheatserver.h, which is not among the sources; they are modelled as 0..3 and
no claim depends on their values, only on the names and the sentinel. -/
def Verbose : List EnumIdName :=
  [⟨0, some (s2l "DEBUG")⟩, ⟨1, some (s2l "VERBOSE")⟩,
   ⟨2, some (s2l "NOTICE")⟩, ⟨3, some (s2l "WARNING")⟩,
   ⟨-1, none⟩]

/-- The `Workers` table from config.c lines 15-17, exactly as written in the
source: two rows and no NULL-name sentinel row. -/
def Workers : List EnumIdName :=
  [⟨0, some (s2l "SyncWorker")⟩, ⟨1, some (s2l "AsyncWorker")⟩]

/-- Result of `enumValidator`'s scan.  `ok e` models `conf->target.enum_ptr = e`
followed by `VALIDATE_OK`; `wrong` models `VALIDATE_WRONG` after stopping at a
NULL-name sentinel row; `oob` marks the pointer `sentinel++` walking past the
last row of the table, an out-of-bounds read (undefined behavior) in C. -/
inductive EnumScanResult where
  | ok (e : EnumIdName)
  | wrong
  | oob
deriving DecidableEq

/-- `enumValidator` from config.c lines 165-182: scan the helper table in
order; a row matches when `strncasecmp(val, row->name, strlen(row->name)) == 0`.
The source's `else if (sentinel == NULL) break;` branch can never execute
(the pointer is never NULL inside the loop) and has no counterpart here. -/
def enumValidator (val : List Char) : List EnumIdName → EnumScanResult
  | [] => .oob
  | e :: rest =>
    match e.name with
    | none => .wrong
    | some n => if strncaseEq val n n.length then .ok e else enumValidator val rest

/-- `stringValidator` from config.c lines 111-124, restricted to its committed
value: the result is `conf->target.ptr` afterwards (`none` = NULL = unset).
`strncasecmp(val, WHEAT_STR_NULL, sizeof(WHEAT_STR_NULL))` compares 5 bytes
including the terminator, i.e. exact case-insensitive equality with "NULL".
The wfree/strdup ownership handling is memory management with no effect on the
committed value.  The validator always returns VALIDATE_OK. -/
def stringValidator (val : List Char) : Option (List Char) :=
  if strncaseEq val (s2l "NULL") 5 then none else some val

/-- The per-byte digit test of `unsignedIntValidator`: `digit = val[i] - 48;
digit < 0 || digit > 9` rejects, phrased on the byte's code point. -/
def isDigitCh (c : Char) : Bool := 48 ≤ c.toNat && c.toNat ≤ 57

/-- The scanning loop of `unsignedIntValidator` (config.c lines 149-156):
`i` is the current index; a non-digit byte rejects, and reaching index 10
(an 11th character) rejects. -/
def digitsLoop : List Char → Nat → Bool
  | [], _ => true
  | c :: cs, i =>
    if !isDigitCh c then false
    else if 10 ≤ i then false
    else digitsLoop cs (i + 1)

/-- `atoi` on the all-digit strings the validator feeds it, as the exact
decimal value.  (C's `int` could overflow at 10-digit inputs, which is
undefined behavior in C; the claims under check concern the validator's
accept/reject logic, stated over the exact value.) -/
def atoiNat (cs : List Char) : Nat :=
  cs.foldl (fun a c => 10 * a + (c.toNat - 48)) 0

/-- `unsignedIntValidator` from config.c lines 140-163, as its committed value:
`maxLimit` is `(intptr_t)conf->helper`, 0 when the helper is NULL; a nonzero
limit rejects values above it; `some v` models `conf->target.val = v` with
VALIDATE_OK, `none` models VALIDATE_WRONG (no mutation). -/
def unsignedIntValidator (maxLimit : Nat) (val : List Char) : Option Nat :=
  if digitsLoop val 0 then
    let value := atoiNat val
    if maxLimit ≠ 0 ∧ value > maxLimit then none else some value
  else none

/-- `boolValidator` from config.c lines 184-194: `memcmp` over
`strlen(val) + 1` bytes, i.e. exact byte equality with "on" / "off"
including the terminator.  `some b` models `conf->target.val = (if b then 1
else 0)` with VALIDATE_OK. -/
def boolValidator (val : List Char) : Option Bool :=
  if val = s2l "on" then some true
  else if val = s2l "off" then some false
  else none

/-- Validator function pointers stored in `configTable`, as a closed tag. -/
inductive ValidatorKind where
  | stringk
  | uintk
  | enumk
  | boolk
  | listk
deriving DecidableEq

/-- Display kinds from wheatserver.h's format field, as used by config.c. -/
inductive ConfFormat where
  | STRING_FORMAT
  | INT_FORMAT
  | ENUM_FORMAT
  | BOOL_FORMAT
  | LIST_FORMAT
deriving DecidableEq

/-- The `void *helper` field of `struct configuration`: NULL, the
`WHEAT_NOTFREE` do-not-free marker for compiled-in constant strings, a numeric
ceiling cast to a pointer, or a pointer to an enum table. -/
inductive ConfHelper where
  | null
  | notfree
  | ceiling (n : Nat)
  | etable (t : List EnumIdName)
deriving DecidableEq

/-- One `struct configuration` row.  The compiled-in default value is omitted:
the default constants (`WHEAT_PROTOCOL_DEFAULT`, `WHEAT_SERVERPORT`, ...) live
in wheatserver.h, which is not among the sources, and no claim under check
depends on them. -/
structure ConfEntry where
  name : List Char
  args : Int
  validator : ValidatorKind
  helper : ConfHelper
  format : ConfFormat
deriving DecidableEq

/-- `WHEAT_BUFLIMIT` is defined in wheatserver.h, which is not among the
sources.  Modelled from the spec: the spec only says the two buffer-size
settings are "bounded"; the concrete value below is immaterial to every claim
under check. -/
def WHEAT_BUFLIMIT : Nat := 268435456

/-- `WHEAT_ARGS_NO_LIMIT` is defined in wheatserver.h, which is not among the
sources.  Modelled from the spec: the spec calls this arity "unbounded" (used
by list-typed entries); modelled as -1, distinct from every declared arity. -/
def WHEAT_ARGS_NO_LIMIT : Int := -1

/-- `configTable` from config.c lines 27-64: the sixteen registered entries,
in registration order, with their declared arity, validator, helper and
display format. -/
def configTable : List ConfEntry :=
  [⟨s2l "protocol",          2, .stringk, .notfree,                .STRING_FORMAT⟩,
   ⟨s2l "bind-addr",         2, .stringk, .notfree,                .STRING_FORMAT⟩,
   ⟨s2l "port",              2, .uintk,   .null,                   .INT_FORMAT⟩,
   ⟨s2l "worker-number",     2, .uintk,   .ceiling 1024,           .INT_FORMAT⟩,
   ⟨s2l "worker-type",       2, .enumk,   .etable Workers,         .ENUM_FORMAT⟩,
   ⟨s2l "logfile",           2, .stringk, .null,                   .STRING_FORMAT⟩,
   ⟨s2l "logfile-level",     2, .enumk,   .etable Verbose,         .ENUM_FORMAT⟩,
   ⟨s2l "daemon",            2, .boolk,   .null,                   .BOOL_FORMAT⟩,
   ⟨s2l "pidfile",           2, .stringk, .null,                   .STRING_FORMAT⟩,
   ⟨s2l "max-buffer-size",   2, .uintk,   .ceiling WHEAT_BUFLIMIT, .INT_FORMAT⟩,
   ⟨s2l "stat-bind-addr",    2, .stringk, .notfree,                .STRING_FORMAT⟩,
   ⟨s2l "stat-port",         2, .uintk,   .null,                   .INT_FORMAT⟩,
   ⟨s2l "stat-refresh-time", 2, .uintk,   .null,                   .INT_FORMAT⟩,
   ⟨s2l "stat-file",         2, .stringk, .null,                   .STRING_FORMAT⟩,
   ⟨s2l "timeout-seconds",   2, .uintk,   .ceiling 300,            .INT_FORMAT⟩,
   ⟨s2l "mbuf-size",         2, .uintk,   .ceiling WHEAT_BUFLIMIT, .INT_FORMAT⟩]

/-- `getConfiguration` from config.c lines 223-240: walk `Server.confs` (the
registry list, filled from `configTable` in order by `initServerConfs`) and
return the first entry with `strncasecmp(name, conf->name, strlen(name)) == 0`,
or NULL.  Parametrised by the registry list. -/
def getConfiguration (confs : List ConfEntry) (name : List Char) : Option ConfEntry :=
  confs.find? (fun c => strncaseEq name c.name name.length)

/-- The character set `"\t\n\r "` stripped by `applyConfig` and `handleList`. -/
def isStripChar (c : Char) : Bool := c = '\t' || c = '\n' || c = '\r' || c = ' '

/-- `wstrStrip(line, "\t\n\r ")`.  wstr.c is not among the sources; modelled
from the spec: leading and trailing occurrences of tab, newline, carriage
return and space are removed from both ends. -/
def wstrStrip (s : List Char) : List Char :=
  ((s.dropWhile isStripChar).reverse.dropWhile isStripChar).reverse

/-- `wstrNewSplit(s, sep, 1, &count)` for a one-byte separator.  wstr.c is not
among the sources; modelled from the spec and the sds-style API: split at every
occurrence of the separator, keeping empty fields.  (applyConfig's own loop
`for (j = 2; j < args; ++j) ... argvs[j]` shows the field count is not capped
at two, so the spec's "at most two pieces" phrasing is not followed here.) -/
def splitOnChar (sep : Char) : List Char → List (List Char)
  | [] => [[]]
  | c :: cs =>
    let r := splitOnChar sep cs
    if c = sep then [] :: r
    else (c :: r.headD []) :: r.tail

/-- The inner character scan of `handleList` (config.c lines 253-273) on one
already-stripped line, with `lineValid` tracking whether the `-` marker was
seen.  `none` models `goto handle_error` (the line terminates the block);
`some none` models the loop finishing without appending an item; `some (some
t)` models `appendToListTail(l, wstrNew(&line[len]))`, the item being the rest
of the line from the first character after the marker and spaces. -/
def scanItem : List Char → Bool → Option (Option (List Char))
  | [], _ => some none
  | c :: rest, lineValid =>
    if c = ' ' then scanItem rest lineValid
    else if c = '-' then
      if lineValid then none else scanItem rest true
    else
      if lineValid then some (some (c :: rest)) else none

/-- `handleList` from config.c lines 243-281, acting on the lines after the
triggering one.  Returns `(items, consumed)`: the collected items in order and
the number of lines consumed.  The C function leaves `*i` at `i + consumed`
(`pos` is decremented once on `handle_error`, also when input runs out), so the
caller's `i++` resumes exactly at the line that stopped the block. -/
def handleList : List (List Char) → List (List Char) × Nat
  | [] => ([], 0)
  | l :: rest =>
    match scanItem (wstrStrip l) false with
    | none => ([], 0)
    | some none => let p := handleList rest; (p.1, p.2 + 1)
    | some (some t) => let p := handleList rest; (t :: p.1, p.2 + 1)

/-- Reason codes of `applyConfig`'s `loaderr` diagnostics (memory-allocation
failures are not modelled). -/
inductive ConfigErr where
  | unknownName
  | incorrectArgs
  | validateFailed
deriving DecidableEq

/-- Committed typed values (`union target` of `struct configuration`), one
constructor per kind actually stored by the validators. -/
inductive ConfValue where
  | str (s : Option (List Char))
  | intv (n : Nat)
  | boolv (b : Bool)
  | enumv (e : EnumIdName)
  | listv (l : List (List Char))
deriving DecidableEq

/-- What `applyConfig` does with one input line, with its 0-based index:
skipped as blank/comment, committed through a validator, committed as a list
block, or a fatal `loaderr` (which stops the whole load). -/
inductive LineEvent where
  | skip (i : Nat)
  | commit (i : Nat) (name : List Char) (v : ConfValue)
  | listCommit (i : Nat) (name : List Char) (items : List (List Char))
  | fatal (i : Nat) (e : ConfigErr)
deriving DecidableEq

/-- The comment/blank test of config.c line 305:
`line[0] == '#' || line[0] == '\0' || line[0] == ' '` on the stripped line. -/
def skipLine (l : List Char) : Bool :=
  match wstrStrip l with
  | [] => true
  | c :: _ => c = '#' || c = ' '

/-- The numeric ceiling read from the helper: `(intptr_t)conf->helper`, 0 when
the helper is NULL.  (In the registry an integer entry's helper is never a
table or the not-free marker.) -/
def ceilingOf : ConfHelper → Nat
  | .ceiling n => n
  | _ => 0

/-- The enum table read from the helper: `(struct enumIdName *)conf->helper`.
(In the registry an enum entry's helper is always a table.) -/
def tableOf : ConfHelper → List EnumIdName
  | .etable t => t
  | _ => []

/-- `conf->validator(conf, argvs[0], ptr)` for a scalar token payload, as the
committed value: `none` is VALIDATE_WRONG, `some v` is VALIDATE_OK with `v`
committed.  An enum scan that runs off an unterminated table is an
out-of-bounds read in C; it is folded into rejection here, and claim C4 treats
it separately via `enumValidator`.  A list validator handed a raw token would
reinterpret the `char *` as a `struct list *` (undefined in C, and no registry
pairs a scalar line with `listValidator`); modelled as rejection. -/
def runValidator (c : ConfEntry) (val : List Char) : Option ConfValue :=
  match c.validator with
  | .stringk => some (.str (stringValidator val))
  | .uintk => (unsignedIntValidator (ceilingOf c.helper) val).map .intv
  | .enumk =>
    match enumValidator val (tableOf c.helper) with
    | .ok e => some (.enumv e)
    | _ => none
  | .boolk => (boolValidator val).map .boolv
  | .listk => none

/-- The arity-repair branch of `applyConfig` (config.c lines 327-336): entered
when `args != conf->args && args == 2`, and then running
`for (j = 2; j < args; ++j) argvs[1] = wstrCatLen(argvs[1], argvs[j], ...)`.
`wstrCatLen` (wstr.c, not among the sources) is modelled from the spec as
catenation without a separator.  The guard forces `args == 2`, so the range
`[2, args)` of the loop is empty. -/
def repairArgs (argvs : List (List Char)) (confArgs : Int) : List (List Char) :=
  if (argvs.length : Int) ≠ confArgs ∧ argvs.length = 2 then
    (List.range' 2 (argvs.length - 2)).foldl
      (fun a j => a.set 1 (a.getD 1 [] ++ a.getD j [])) argvs
  else argvs

/-- The per-line loop of `applyConfig` (config.c lines 303-347) over the split
lines, producing the sequence of line events; a fatal event is last (the C code
jumps to `loaderr` and `halt(1)`).  `i` is the current 0-based line index.
`fuel` makes the recursion structural; each iteration consumes at least one
line, so `applyConfig` passing `lines.length` can never hit `0` early. -/
def applyConfigLoop (tbl : List ConfEntry) : Nat → Nat → List (List Char) → List LineEvent
  | 0, _, _ => []
  | _ + 1, _, [] => []
  | fuel + 1, i, line :: rest =>
    if skipLine line then LineEvent.skip i :: applyConfigLoop tbl fuel (i + 1) rest
    else
      let argvs := splitOnChar ' ' (wstrStrip line)
      let args := argvs.length
      match getConfiguration tbl (argvs.headD []) with
      | none => [LineEvent.fatal i .unknownName]
      | some conf =>
        -- ptr = argvs[1]; when args == 1 this indexes past the split array in
        -- C, but that path dies on the arity check before ptr is ever used
        let ptr := argvs.getD 1 []
        if args = 1 ∧ conf.format = ConfFormat.LIST_FORMAT then
          let p := handleList rest
          if (args : Int) ≠ conf.args ∧ conf.args ≠ WHEAT_ARGS_NO_LIMIT then
            [LineEvent.fatal i .incorrectArgs]
          else
            match conf.validator with
            | .listk =>
              LineEvent.listCommit i conf.name p.1 ::
                applyConfigLoop tbl fuel (i + 1 + p.2) (rest.drop p.2)
            | _ => [LineEvent.fatal i .validateFailed]
        else
          -- the arity-repair branch; its result is dropped exactly as C keeps
          -- using the pre-captured ptr and the unchanged args count
          let _argvs2 := repairArgs argvs conf.args
          if (args : Int) ≠ conf.args ∧ conf.args ≠ WHEAT_ARGS_NO_LIMIT then
            [LineEvent.fatal i .incorrectArgs]
          else
            match runValidator conf ptr with
            | none => [LineEvent.fatal i .validateFailed]
            | some v => LineEvent.commit i conf.name v :: applyConfigLoop tbl fuel (i + 1) rest

/-- `applyConfig` from config.c lines 290-358: split the whole text on `"\n"`
and run the per-line loop.  (On full success C then calls `fillServerConfig`;
that copy-out step is modelled separately by `fillServerConfig` below.) -/
def applyConfig (tbl : List ConfEntry) (config : List Char) : List LineEvent :=
  let lines := splitOnChar '\n' config
  applyConfigLoop tbl lines.length 0 lines

/-- The `target` accessors used by `fillServerConfig`: `conf->target.ptr`.
The union is only ever read at the kind its entry stores. -/
def targetPtr : ConfValue → Option (List Char)
  | .str s => s
  | _ => none

/-- `conf->target.val`; `boolValidator` stores 1 for true and 0 for false. -/
def targetVal : ConfValue → Nat
  | .intv n => n
  | .boolv b => if b then 1 else 0
  | _ => 0

/-- `conf->target.enum_ptr`. -/
def targetEnum : ConfValue → EnumIdName
  | .enumv e => e
  | _ => ⟨-1, none⟩

/-- The configuration-derived fields of the global `Server` structure written
by `fillServerConfig` (config.c lines 71-104), in assignment order. -/
structure ServerStruct where
  bind_addr : Option (List Char)
  port : Nat
  worker_number : Nat
  worker_type : Option (List Char)
  logfile : Option (List Char)
  verbose : Int
  daemon : Nat
  pidfile : Option (List Char)
  max_buffer_size : Nat
  stat_addr : Option (List Char)
  stat_port : Nat
  stat_refresh_seconds : Nat
  stat_file : Option (List Char)
  worker_timeout : Nat
  mbuf_size : Nat
deriving DecidableEq

/-- `fillServerConfig` from config.c lines 71-104, over the committed values of
the registry in registration order.  The walk starts at `&configTable[1]`
(bind-addr) and advances once per assignment: index 0 (protocol) is never
read. -/
def fillServerConfig (vals : List ConfValue) : ServerStruct :=
  let d := ConfValue.intv 0
  ⟨targetPtr (vals.getD 1 d),
   targetVal (vals.getD 2 d),
   targetVal (vals.getD 3 d),
   (targetEnum (vals.getD 4 d)).name,
   targetPtr (vals.getD 5 d),
   (targetEnum (vals.getD 6 d)).id,
   targetVal (vals.getD 7 d),
   targetPtr (vals.getD 8 d),
   targetVal (vals.getD 9 d),
   targetPtr (vals.getD 10 d),
   targetVal (vals.getD 11 d),
   targetVal (vals.getD 12 d),
   targetPtr (vals.getD 13 d),
   targetVal (vals.getD 14 d),
   targetVal (vals.getD 15 d)⟩

/-- `extraValidator` from config.c lines 197-201:
`ASSERT(Server.stat_refresh_seconds < Server.worker_timeout)` and
`ASSERT(Server.port && Server.stat_port)`.  The `ASSERT` macro lives in
wheatserver.h, which is not among the sources; modelled from the spec: a
violated check is fatal, so `false` here is the fatal outcome. -/
def extraValidator (s : ServerStruct) : Bool :=
  decide (s.stat_refresh_seconds < s.worker_timeout) &&
    decide (s.port ≠ 0) && decide (s.stat_port ≠ 0)

/-- One decimal digit as its ASCII character, for `%d` rendering. -/
def digitCh (d : Nat) : Char := Char.ofNat (48 + d)

/-- Decimal rendering worker; `fuel` only bounds the recursion and any fuel of
at least the digit count gives the same output. -/
def natToDecAux : Nat → Nat → List Char
  | 0, _ => []
  | fuel + 1, n =>
    if n < 10 then [digitCh n]
    else natToDecAux fuel (n / 10) ++ [digitCh (n % 10)]

/-- `snprintf`'s `%d` on the committed nonnegative value. -/
def natToDec (n : Nat) : List Char := natToDecAux (n + 1) n

/-- The value part of `constructConfigFormat`'s `"name: value"` output
(config.c lines 388-423), per display kind.  `none` marks the cases where the
C code would pass a NULL `char *` to `%s` (a NULL string value or a NULL enum
name), which is undefined behavior.  BOOL prints `target.val` with `%d`, and
`boolValidator` stores exactly 1 or 0.  LIST prints each item followed by a
tab; the 255-byte truncation of the C buffer is not modelled. -/
def formatValuePart : ConfValue → Option (List Char)
  | .str (some t) => some t
  | .str none => none
  | .intv n => some (natToDec n)
  | .boolv b => some (if b then s2l "1" else s2l "0")
  | .enumv e => e.name
  | .listv l => some (l.foldl (fun acc it => acc ++ it ++ ['\t']) [])

/-- `constructConfigFormat`'s full `"name: value"` line. -/
def constructConfigFormat (c : ConfEntry) (v : ConfValue) : Option (List Char) :=
  (formatValuePart v).map (fun t => c.name ++ s2l ": " ++ t)

/-- Claim-side classification of one candidate list-block line, stated
directly: after stripping, an empty line or a lone `-` (page of spaces
allowed after it) is consumed with no item; a leading `-` followed by spaces
and then item text yields that item; any other shape — item content before a
`-`, or a second `-` before the item text — is malformed and stops the
block. -/
inductive ItemClass where
  | blank
  | item (t : List Char)
  | term
deriving DecidableEq

/-- Classify one raw line the way `handleList`'s scan treats it. -/
def classifyItemLine (raw : List Char) : ItemClass :=
  match wstrStrip raw with
  | [] => .blank
  | c :: t =>
    if c = '-' then
      match t.dropWhile (fun x => x = ' ') with
      | [] => .blank
      | d :: r => if d = '-' then .term else .item (d :: r)
    else .term

/-- Whether a line stops a list block, per `classifyItemLine`. -/
def isTermLine (l : List Char) : Bool :=
  match classifyItemLine l with
  | .term => true
  | _ => false

/-- Index of the first block-stopping line (the list length if none). -/
def termIdx (rest : List (List Char)) : Nat := rest.findIdx isTermLine

/-- The item contributed by one consumed line, if any. -/
def itemOf (l : List Char) : Option (List Char) :=
  match classifyItemLine l with
  | .item t => some t
  | _ => none

/-- The item pattern exactly as claim C5 words it: zero or more spaces,
exactly one `-` marker, then item text. -/
def claimItemShape (raw : List Char) : Bool :=
  match (wstrStrip raw).dropWhile (fun c => c = ' ') with
  | '-' :: t =>
    match t.dropWhile (fun c => c = ' ') with
    | [] => false
    | d :: _ => !(d = '-')
  | _ => false

/-- Recognizer for list-commit events. -/
def isListCommit : LineEvent → Bool
  | .listCommit _ _ _ => true
  | _ => false

/-- A two-entry registry with a list-typed setting, used only as a concrete
instance for the list-block theorems (the shipped `configTable` has no
list-typed entry — claim C10).  It mirrors the spec's Scenario D. -/
def demoListTable : List ConfEntry :=
  [⟨s2l "mylist", WHEAT_ARGS_NO_LIMIT, .listk, .null, .LIST_FORMAT⟩,
   ⟨s2l "other-setting", 2, .stringk, .null, .STRING_FORMAT⟩]

/-- Committed values for entries 1..15 of the registry (everything after
protocol), used as a fixed context in the `fillServerConfig` counterexample. -/
def tailVals : List ConfValue :=
  [ConfValue.str (some (s2l "127.0.0.1")), ConfValue.intv 10828, ConfValue.intv 2,
   ConfValue.enumv ⟨0, some (s2l "SyncWorker")⟩, ConfValue.str none,
   ConfValue.enumv ⟨2, some (s2l "NOTICE")⟩, ConfValue.boolv false,
   ConfValue.str none, ConfValue.intv 4096,
   ConfValue.str (some (s2l "127.0.0.1")), ConfValue.intv 10829,
   ConfValue.intv 30, ConfValue.str none, ConfValue.intv 300,
   ConfValue.intv 4096]

/-! ## Helper lemmas -/

theorem bool_ext {a b : Bool} (h : a = true ↔ b = true) : a = b := by
  cases a <;> cases b <;> simp_all

theorem strncaseEq_iff_take : ∀ (a b : List Char) (n : Nat),
    strncaseEq a b n = true ↔ lowerL (a.take n) = lowerL (b.take n)
  | _, _, 0 => by simp [strncaseEq, lowerL]
  | [], [], _ + 1 => by simp [strncaseEq, lowerL]
  | [], _ :: _, _ + 1 => by simp [strncaseEq, lowerL]
  | _ :: _, [], _ + 1 => by simp [strncaseEq, lowerL]
  | a :: as, b :: bs, n + 1 => by
    simp [strncaseEq, lowerL, Bool.and_eq_true, beq_iff_eq,
      strncaseEq_iff_take as bs n]

theorem lowerL_length (s : List Char) : (lowerL s).length = s.length :=
  List.length_map s lowerChar

theorem strncaseEq_firstLen (a b : List Char) :
    strncaseEq a b a.length = true ↔ lowerL a <+: lowerL b := by
  rw [strncaseEq_iff_take, List.take_length, List.prefix_iff_eq_take, lowerL_length]
  unfold lowerL
  rw [List.map_take]

theorem strncaseEq_secondLen (a b : List Char) :
    strncaseEq a b b.length = true ↔ lowerL b <+: lowerL a := by
  rw [strncaseEq_iff_take, List.take_length, List.prefix_iff_eq_take, lowerL_length]
  unfold lowerL
  rw [List.map_take]
  exact eq_comm

theorem find?_ext {α : Type} (p q : α → Bool) (h : ∀ x, p x = q x) :
    ∀ l : List α, l.find? p = l.find? q
  | [] => rfl
  | a :: l => by
    by_cases hb : q a = true
    · rw [List.find?_cons_of_pos l (by rw [h a]; exact hb), List.find?_cons_of_pos l hb]
    · rw [List.find?_cons_of_neg l (by rw [h a]; exact hb), List.find?_cons_of_neg l hb,
        find?_ext p q h l]

theorem enumValidator_eq_find : ∀ (tbl : List EnumIdName) (val : List Char) (e : EnumIdName),
    enumValidator val tbl = .ok e ↔
      (tbl.takeWhile (fun x => x.name.isSome)).find?
        (fun x => match x.name with
          | some n => strncaseEq val n n.length
          | none => false) = some e
  | [], val, e => by simp [enumValidator]
  | e0 :: rest, val, e => by
    cases hn : e0.name with
    | none =>
      simp only [enumValidator, hn, List.takeWhile_cons, Option.isSome_none,
        Bool.false_eq_true, if_false]
      simp
    | some n =>
      simp only [enumValidator, hn, List.takeWhile_cons, Option.isSome_some, if_true]
      by_cases hm : strncaseEq val n n.length = true
      · rw [if_pos hm, List.find?_cons_of_pos _ (by rw [hn]; exact hm)]
        constructor
        · intro h; cases h; rfl
        · intro h; cases h; rfl
      · rw [if_neg hm, List.find?_cons_of_neg _ (by rw [hn]; exact hm)]
        exact enumValidator_eq_find rest val e

theorem enumValidator_ok_mem : ∀ (tbl : List EnumIdName) (val : List Char) (e : EnumIdName),
    enumValidator val tbl = .ok e → e ∈ tbl
  | [], val, e => by simp [enumValidator]
  | e0 :: rest, val, e => by
    intro h
    cases hn : e0.name with
    | none => rw [enumValidator, hn] at h; cases h
    | some n =>
      simp only [enumValidator, hn] at h
      by_cases hm : strncaseEq val n n.length = true
      · rw [if_pos hm] at h; cases h; exact List.mem_cons_self _ _
      · rw [if_neg hm] at h
        exact List.mem_cons_of_mem _ (enumValidator_ok_mem rest val e h)

theorem enumValidator_ok_matched : ∀ (tbl : List EnumIdName) (val : List Char) (e : EnumIdName),
    enumValidator val tbl = .ok e →
      ∃ nn, e.name = some nn ∧ strncaseEq val nn nn.length = true
  | [], val, e => by simp [enumValidator]
  | e0 :: rest, val, e => by
    intro h
    cases hn : e0.name with
    | none => rw [enumValidator, hn] at h; cases h
    | some n =>
      simp only [enumValidator, hn] at h
      by_cases hm : strncaseEq val n n.length = true
      · rw [if_pos hm] at h; cases h; exact ⟨n, hn, hm⟩
      · rw [if_neg hm] at h
        exact enumValidator_ok_matched rest val e h

theorem digitsLoop_iff : ∀ (cs : List Char) (i : Nat),
    digitsLoop cs i = true ↔ (cs.all isDigitCh = true ∧ (cs = [] ∨ i + cs.length ≤ 10))
  | [], i => by simp [digitsLoop]
  | c :: cs, i => by
    by_cases hc : isDigitCh c = true
    · by_cases hi : 10 ≤ i
      · simp only [digitsLoop, hc, Bool.not_true, Bool.false_eq_true, if_false, if_pos hi]
        simp only [List.all_cons, hc, Bool.true_and, List.length_cons]
        constructor
        · intro h; cases h
        · rintro ⟨-, h | h⟩
          · cases h
          · omega
      · simp only [digitsLoop, hc, Bool.not_true, Bool.false_eq_true, if_false, if_neg hi,
          digitsLoop_iff cs (i + 1)]
        simp only [List.all_cons, hc, Bool.true_and, List.length_cons]
        constructor
        · rintro ⟨h1, h2 | h2⟩
          · subst h2; exact ⟨h1, Or.inr (by simp; omega)⟩
          · exact ⟨h1, Or.inr (by omega)⟩
        · rintro ⟨h1, h2 | h2⟩
          · cases h2
          · exact ⟨h1, Or.inr (by omega)⟩
    · simp only [digitsLoop, hc]
      simp [List.all_cons, hc]

theorem uintValidator_some_iff (maxLimit : Nat) (val : List Char) (v : Nat) :
    unsignedIntValidator maxLimit val = some v ↔
      (val.all isDigitCh = true ∧ val.length ≤ 10 ∧ v = atoiNat val ∧
        (maxLimit ≠ 0 → v ≤ maxLimit)) := by
  unfold unsignedIntValidator
  by_cases hd : digitsLoop val 0 = true
  · rw [if_pos hd]
    obtain ⟨hall, hlen⟩ := (digitsLoop_iff val 0).mp hd
    have hlen10 : val.length ≤ 10 := by
      rcases hlen with h | h
      · simp [h]
      · omega
    by_cases hm : maxLimit ≠ 0 ∧ atoiNat val > maxLimit
    · rw [if_pos hm]
      constructor
      · intro h; cases h
      · rintro ⟨-, -, rfl, himp⟩
        exact absurd (himp hm.1) (by omega)
    · rw [if_neg hm]
      constructor
      · intro h
        cases h
        refine ⟨hall, hlen10, rfl, fun h0 => ?_⟩
        by_contra hgt
        exact hm ⟨h0, by omega⟩
      · rintro ⟨-, -, rfl, -⟩; rfl
  · rw [if_neg hd]
    constructor
    · intro h; cases h
    · rintro ⟨hall, hlen, -, -⟩
      exact absurd ((digitsLoop_iff val 0).mpr ⟨hall, Or.inr (by omega)⟩) hd

/-! ## Claim theorems -/

/-- C8: for every input to the enum validator, the table is scanned in order
and the first entry (among those before any sentinel) whose name matches the
input case-insensitively over the length of that candidate name — i.e. whose
name is a case-insensitive prefix of the input — is the one selected and
committed (`.ok e` models `conf->target.enum_ptr = e`); table order decides
when several entries match, even if a later entry is a longer match. -/
theorem enumValidator_first_match (val : List Char) (tbl : List EnumIdName) (e : EnumIdName) :
    enumValidator val tbl = .ok e ↔
      (tbl.takeWhile (fun x => x.name.isSome)).find?
        (fun x => match x.name with
          | some n => (lowerL n).isPrefixOf (lowerL val)
          | none => false) = some e := by
  rw [enumValidator_eq_find]
  rw [find?_ext _ _ (fun x => ?_) (tbl.takeWhile fun x => x.name.isSome)]
  cases hn : x.name with
  | none => rfl
  | some n =>
    exact bool_ext (by rw [strncaseEq_secondLen, List.isPrefixOf_iff_prefix])

/-- C2 counterexample: "DEB", a proper case-insensitive prefix of the declared
option name "DEBUG", is not accepted by the enum validator — the scan reaches
the sentinel of the Verbose table and fails, refuting the claim that every
non-empty prefix of an option name is accepted. -/
theorem enumValidator_deb_cx :
    enumValidator (s2l "DEB") Verbose = .wrong ∧
    enumValidator (s2l "DEB") Verbose ≠ .ok ⟨0, some (s2l "DEBUG")⟩ := by decide

/-- C2 amended: the match direction is the reverse of the claim — an input
names the option DEBUG (the first Verbose entry) exactly when the declared
name "DEBUG" is a case-insensitive prefix of the input, so "DEB" is rejected
while e.g. "DEBUGGING" is accepted. -/
theorem enumValidator_verbose_debug (val : List Char) :
    enumValidator val Verbose = .ok ⟨0, some (s2l "DEBUG")⟩ ↔
      lowerL (s2l "DEBUG") <+: lowerL val := by
  show enumValidator val (⟨0, some (s2l "DEBUG")⟩ :: _) = _ ↔ _
  by_cases hm : strncaseEq val (s2l "DEBUG") (s2l "DEBUG").length = true
  · refine iff_of_true ?_ ((strncaseEq_secondLen val (s2l "DEBUG")).mp hm)
    simp only [enumValidator]
    rw [if_pos hm]
  · refine iff_of_false ?_ (fun hp => hm ((strncaseEq_secondLen val (s2l "DEBUG")).mpr hp))
    simp only [enumValidator]
    rw [if_neg hm]
    intro h
    repeat' split at h
    all_goals simp_all

/-- C4 (code bug): the Verbose table does end in an empty-name sentinel, but
the Workers table does not — it has no sentinel row at all — so for an input
matching neither worker name the scan does not stop at a sentinel with
VALIDATE_WRONG; it walks past the end of the table (`.oob`), an out-of-bounds
read / undefined behavior in C, contradicting the stated table invariant and
the claimed safety property. -/
theorem workers_missing_sentinel :
    (Verbose.any fun e => e.name.isNone) = true ∧
    (Workers.all fun e => e.name.isSome) = true ∧
    enumValidator (s2l "NoSuchWorker") Workers = .oob := by decide

/-- C6: the integer validator commits `v` exactly when the token is all ASCII
digits, has at most 10 of them (an 11-or-more-digit literal is rejected
regardless of value), `v` is its decimal value, and `v` does not exceed a
declared nonzero ceiling. -/
theorem unsignedIntValidator_spec (maxLimit : Nat) (val : List Char) (v : Nat) :
    unsignedIntValidator maxLimit val = some v ↔
      (val.all isDigitCh = true ∧ val.length ≤ 10 ∧ v = atoiNat val ∧
        (maxLimit ≠ 0 → v ≤ maxLimit)) :=
  uintValidator_some_iff maxLimit val v

/-- C7: registry lookup compares case-insensitively over the length of the
query as a prefix of each stored entry name — `getConfiguration` equals the
first entry in registration order whose stored name has the query as a
case-insensitive prefix, and is `none` when no stored name does.  Concretely,
the query "time" resolves to the stored entry "timeout-seconds", and a query
that is no stored name's prefix (e.g. "porch") resolves to nothing. -/
theorem getConfiguration_asymmetric :
    (∀ (confs : List ConfEntry) (q : List Char),
        getConfiguration confs q =
          confs.find? (fun c => (lowerL q).isPrefixOf (lowerL c.name))) ∧
    getConfiguration configTable (s2l "time") =
      some ⟨s2l "timeout-seconds", 2, .uintk, .ceiling 300, .INT_FORMAT⟩ ∧
    getConfiguration configTable (s2l "porch") = none := by
  refine ⟨?_, by decide, by decide⟩
  intro confs q
  unfold getConfiguration
  exact find?_ext _ _
    (fun c => bool_ext (by rw [strncaseEq_firstLen, List.isPrefixOf_iff_prefix])) confs

/-- C9 counterexample: two registries whose committed values differ only in
the protocol entry (index 0) produce identical flat `Server` structures —
`fillServerConfig` starts its walk at `&configTable[1]`, so not **all**
registered values are copied out, refuting that part of the claim. -/
theorem fillServerConfig_ignores_protocol_cx :
    fillServerConfig (ConfValue.str (some (s2l "http")) :: tailVals) =
      fillServerConfig (ConfValue.str (some (s2l "mongrel2")) :: tailVals) ∧
    ConfValue.str (some (s2l "http")) ≠ ConfValue.str (some (s2l "mongrel2")) := by decide

/-- C9 amended: after a fully successful load every registered value **except
the first entry (protocol)** is copied into the flat `Server` structure, in
registration order; the post-load structural check passes exactly when the
stat-refresh interval is strictly below the worker timeout and both the
primary and the statistics port are nonzero, and a configuration with
stat-refresh-time 400 and timeout-seconds 300 fails it (fatal per the spec's
reading of ASSERT). -/
theorem fillServerConfig_amended
    (p ba po wn wt lf ll dm pf mb sba sp srt sf ts ms : ConfValue) (s : ServerStruct) :
    fillServerConfig [p, ba, po, wn, wt, lf, ll, dm, pf, mb, sba, sp, srt, sf, ts, ms] =
      ⟨targetPtr ba, targetVal po, targetVal wn, (targetEnum wt).name, targetPtr lf,
       (targetEnum ll).id, targetVal dm, targetPtr pf, targetVal mb, targetPtr sba,
       targetVal sp, targetVal srt, targetPtr sf, targetVal ts, targetVal ms⟩ ∧
    (extraValidator s = true ↔
      (s.stat_refresh_seconds < s.worker_timeout ∧ s.port ≠ 0 ∧ s.stat_port ≠ 0)) ∧
    (s.stat_refresh_seconds = 400 → s.worker_timeout = 300 → extraValidator s = false) := by
  refine ⟨rfl, ?_, ?_⟩
  · simp [extraValidator, and_assoc]
  · intro h1 h2
    simp [extraValidator, h1, h2]

/-- C9 witness: the amended theorem applied at a concrete server state with
stat-refresh 400 and timeout 300 — the structural check fails. -/
theorem fillServerConfig_amended_witness :
    extraValidator
      ⟨none, 10828, 2, none, none, 2, 0, none, 4096, none, 10829, 400, none, 300, 4096⟩ =
      false :=
  (fillServerConfig_amended (.intv 0) (.intv 0) (.intv 0) (.intv 0) (.intv 0) (.intv 0)
    (.intv 0) (.intv 0) (.intv 0) (.intv 0) (.intv 0) (.intv 0) (.intv 0) (.intv 0)
    (.intv 0) (.intv 0)
    ⟨none, 10828, 2, none, none, 2, 0, none, 4096, none, 10829, 400, none, 300, 4096⟩).2.2
    rfl rfl

theorem digitCh_spec (d : Nat) (hd : d < 10) :
    isDigitCh (digitCh d) = true ∧ (digitCh d).toNat = 48 + d := by
  interval_cases d <;> exact ⟨rfl, rfl⟩

theorem atoiNat_append (xs : List Char) (c : Char) :
    atoiNat (xs ++ [c]) = 10 * atoiNat xs + (c.toNat - 48) := by
  unfold atoiNat
  rw [List.foldl_append]
  rfl

theorem natToDecAux_spec : ∀ (fuel n : Nat), n < 10 ^ fuel →
    (natToDecAux fuel n).all isDigitCh = true ∧
    (natToDecAux fuel n).length ≤ fuel ∧
    atoiNat (natToDecAux fuel n) = n := by
  intro fuel
  induction fuel with
  | zero =>
    intro n hn
    have h0 : n = 0 := by simpa using hn
    subst h0
    exact ⟨rfl, by simp [natToDecAux], rfl⟩
  | succ fuel ih =>
    intro n hn
    unfold natToDecAux
    by_cases h10 : n < 10
    · rw [if_pos h10]
      obtain ⟨hd1, hd2⟩ := digitCh_spec n h10
      refine ⟨by simp [hd1], by simp, ?_⟩
      show atoiNat [digitCh n] = n
      unfold atoiNat
      simp [hd2]
    · rw [if_neg h10]
      have hdiv : n / 10 < 10 ^ fuel := by
        rw [Nat.div_lt_iff_lt_mul (by norm_num)]
        rw [pow_succ] at hn
        exact hn
      obtain ⟨ha, hl, hv⟩ := ih (n / 10) hdiv
      obtain ⟨hd1, hd2⟩ := digitCh_spec (n % 10) (Nat.mod_lt _ (by norm_num))
      refine ⟨?_, ?_, ?_⟩
      · simp [List.all_append, ha, hd1]
      · simp only [List.length_append, List.length_cons, List.length_nil]
        omega
      · rw [atoiNat_append, hv, hd2]
        omega

theorem natToDecAux_fuel : ∀ (f1 f2 n : Nat), n < 10 ^ f1 → n < 10 ^ f2 →
    1 ≤ f1 → 1 ≤ f2 → natToDecAux f1 n = natToDecAux f2 n
  | 0, _, _ => by omega
  | _ + 1, 0, _ => by omega
  | f1 + 1, f2 + 1, n => by
    intro h1 h2 _ _
    unfold natToDecAux
    by_cases h10 : n < 10
    · rw [if_pos h10, if_pos h10]
    · rw [if_neg h10, if_neg h10]
      have hf1 : 1 ≤ f1 := by
        by_contra h
        have : f1 = 0 := by omega
        subst this
        simp at h1
        omega
      have hf2 : 1 ≤ f2 := by
        by_contra h
        have : f2 = 0 := by omega
        subst this
        simp at h2
        omega
      have hd1 : n / 10 < 10 ^ f1 := by
        rw [Nat.div_lt_iff_lt_mul (by norm_num)]
        rw [pow_succ] at h1
        exact h1
      have hd2 : n / 10 < 10 ^ f2 := by
        rw [Nat.div_lt_iff_lt_mul (by norm_num)]
        rw [pow_succ] at h2
        exact h2
      rw [natToDecAux_fuel f1 f2 (n / 10) hd1 hd2 hf1 hf2]

theorem natToDec_spec (n : Nat) (h : n < 10 ^ 10) :
    (natToDec n).all isDigitCh = true ∧ (natToDec n).length ≤ 10 ∧
    atoiNat (natToDec n) = n := by
  unfold natToDec
  have hself : n < 10 ^ (n + 1) :=
    lt_of_lt_of_le (Nat.lt_pow_self (by norm_num) n)
      (Nat.pow_le_pow_right (by norm_num) (by omega))
  rw [natToDecAux_fuel (n + 1) 10 n hself h (by omega) (by norm_num)]
  exact natToDecAux_spec 10 n h

theorem atoiNat_lt (cs : List Char) (h : cs.all isDigitCh = true) :
    atoiNat cs < 10 ^ cs.length := by
  have gen : ∀ (cs : List Char) (acc : Nat), cs.all isDigitCh = true →
      cs.foldl (fun a c => 10 * a + (c.toNat - 48)) acc < (acc + 1) * 10 ^ cs.length := by
    intro cs
    induction cs with
    | nil =>
      intro acc _
      simp
    | cons c cs ih =>
      intro acc hall
      rw [List.all_cons, Bool.and_eq_true] at hall
      obtain ⟨hc, hcs⟩ := hall
      have hd : c.toNat - 48 ≤ 9 := by
        simp only [isDigitCh, Bool.and_eq_true, decide_eq_true_eq] at hc
        omega
      have step := ih (10 * acc + (c.toNat - 48)) hcs
      calc List.foldl (fun a c => 10 * a + (c.toNat - 48)) acc (c :: cs)
          = List.foldl (fun a c => 10 * a + (c.toNat - 48))
              (10 * acc + (c.toNat - 48)) cs := rfl
        _ < (10 * acc + (c.toNat - 48) + 1) * 10 ^ cs.length := step
        _ ≤ ((acc + 1) * 10) * 10 ^ cs.length := by
            have : 10 * acc + (c.toNat - 48) + 1 ≤ (acc + 1) * 10 := by omega
            exact Nat.mul_le_mul_right _ this
        _ = (acc + 1) * 10 ^ (c :: cs).length := by
            rw [List.length_cons, pow_succ]
            ring
  have := gen cs 0 h
  simpa using this

/-- C3 counterexample: a committed boolean does not survive format-then-parse.
`daemon on` commits true; the formatter renders the value as the decimal "1";
re-feeding that formatted value through the apply pipeline (`daemon 1`) dies
in `boolValidator`, which accepts only the exact literals "on"/"off" — so the
claimed round-trip identity fails for the boolean kind. -/
theorem bool_roundtrip_cx :
    boolValidator (s2l "on") = some true ∧
    formatValuePart (.boolv true) = some (s2l "1") ∧
    applyConfig configTable (s2l "daemon 1") = [LineEvent.fatal 0 .validateFailed] := by
  decide

/-- C3 amended: format-then-parse returns the committed value for the integer,
enum and string kinds (for values committed through the corresponding
validator; a NULL string value has no defined `%s` rendering), but not for the
boolean kind, whose decimal rendering the boolean validator rejects. -/
theorem roundtrip_amended :
    (∀ (maxLimit : Nat) (tok fv : List Char) (v : Nat),
        unsignedIntValidator maxLimit tok = some v →
        formatValuePart (.intv v) = some fv →
        unsignedIntValidator maxLimit fv = some v) ∧
    (∀ (tbl : List EnumIdName) (val n : List Char) (e : EnumIdName),
        enumValidator val tbl = .ok e →
        formatValuePart (.enumv e) = some n →
        enumValidator n tbl = .ok e) ∧
    (∀ (val s fv : List Char),
        stringValidator val = some s →
        formatValuePart (.str (some s)) = some fv →
        stringValidator fv = some s) := by
  refine ⟨?_, ?_, ?_⟩
  · intro maxLimit tok fv v hval hfmt
    obtain ⟨hall, hlen, hv, hceil⟩ := (uintValidator_some_iff maxLimit tok v).mp hval
    have hfv : fv = natToDec v := by
      simp only [formatValuePart, Option.some_inj] at hfmt
      exact hfmt.symm
    subst hfv
    have hvlt : v < 10 ^ 10 := by
      calc v = atoiNat tok := hv
        _ < 10 ^ tok.length := atoiNat_lt tok hall
        _ ≤ 10 ^ 10 := Nat.pow_le_pow_right (by norm_num) hlen
    obtain ⟨ha, hl, hat⟩ := natToDec_spec v hvlt
    exact (uintValidator_some_iff maxLimit (natToDec v) v).mpr
      ⟨ha, hl, hat.symm, hceil⟩
  · intro tbl
    induction tbl with
    | nil =>
      intro val n e h
      simp [enumValidator] at h
    | cons e0 rest ih =>
      intro val n e hscan hfmt
      simp only [formatValuePart] at hfmt
      cases hn0 : e0.name with
      | none =>
        simp only [enumValidator, hn0] at hscan
        cases hscan
      | some n0 =>
        simp only [enumValidator, hn0] at hscan ⊢
        by_cases hm : strncaseEq val n0 n0.length = true
        · rw [if_pos hm] at hscan
          cases hscan
          rw [hn0] at hfmt
          cases hfmt
          rw [if_pos (by rw [strncaseEq_secondLen])]
        · rw [if_neg hm] at hscan
          by_cases hm2 : strncaseEq n n0 n0.length = true
          · exfalso
            obtain ⟨nn, hnn, hmm⟩ := enumValidator_ok_matched rest val e hscan
            rw [hnn] at hfmt
            cases hfmt
            have t1 : lowerL n0 <+: lowerL n := (strncaseEq_secondLen n n0).mp hm2
            have t2 : lowerL n <+: lowerL val := (strncaseEq_secondLen val n).mp hmm
            exact hm ((strncaseEq_secondLen val n0).mpr (t1.trans t2))
          · rw [if_neg hm2]
            exact ih val n e hscan hfmt
  · intro val s fv hval hfmt
    simp only [formatValuePart, Option.some_inj] at hfmt
    subst hfmt
    unfold stringValidator at hval ⊢
    by_cases hnull : strncaseEq val (s2l "NULL") 5 = true
    · rw [if_pos hnull] at hval
      cases hval
    · rw [if_neg hnull] at hval
      cases hval
      rw [if_neg hnull]

/-- C3 witness: the amended round-trips applied at concrete committed values
(integer 5 under ceiling 1024, enum NOTICE in the Verbose table, string
"wheat.log"). -/
theorem roundtrip_amended_witness :
    unsignedIntValidator 1024 (s2l "5") = some 5 ∧
    enumValidator (s2l "NOTICE") Verbose = .ok ⟨2, some (s2l "NOTICE")⟩ ∧
    stringValidator (s2l "wheat.log") = some (s2l "wheat.log") :=
  ⟨roundtrip_amended.1 1024 (s2l "5") (s2l "5") 5 (by decide) (by decide),
   roundtrip_amended.2.1 Verbose (s2l "NOTICE") (s2l "NOTICE")
     ⟨2, some (s2l "NOTICE")⟩ (by decide) (by decide),
   roundtrip_amended.2.2 (s2l "wheat.log") (s2l "wheat.log") (s2l "wheat.log")
     (by decide) (by decide)⟩

theorem dropWhile_head_false {α : Type} (p : α → Bool) :
    ∀ (l : List α) (c : α) (t : List α), l.dropWhile p = c :: t → p c = false
  | [], c, t => by simp [List.dropWhile]
  | a :: l, c, t => by
    rw [List.dropWhile_cons]
    by_cases h : p a = true
    · rw [if_pos h]
      exact dropWhile_head_false p l c t
    · rw [if_neg h]
      intro he
      cases he
      simpa using h

theorem wstrStrip_head (l : List Char) (c : Char) (t : List Char)
    (h : wstrStrip l = c :: t) : isStripChar c = false := by
  have h1 : (wstrStrip l).reverse <:+ ((l.dropWhile isStripChar).reverse) := by
    unfold wstrStrip
    rw [List.reverse_reverse]
    exact List.dropWhile_suffix _
  have h2 : wstrStrip l <+: l.dropWhile isStripChar := List.reverse_suffix.mp h1
  obtain ⟨u, hu⟩ := h2
  rw [h] at hu
  exact dropWhile_head_false isStripChar l c (t ++ u) (by rw [← hu]; rfl)

theorem scanItem_true (t : List Char) :
    scanItem t true = (match t.dropWhile (fun x => x = ' ') with
      | [] => some none
      | d :: r => if d = '-' then none else some (some (d :: r))) := by
  induction t with
  | nil => rfl
  | cons c r ih =>
    by_cases h : c = ' '
    · subst h
      rw [List.dropWhile_cons, if_pos (by simp)]
      rw [← ih]
      simp [scanItem]
    · by_cases h2 : c = '-'
      · subst h2
        rw [List.dropWhile_cons, if_neg (by simp)]
        simp [scanItem]
      · rw [List.dropWhile_cons, if_neg (by simp [h])]
        simp [scanItem, h, h2]

theorem scanItem_classify (raw : List Char) :
    scanItem (wstrStrip raw) false =
      (match classifyItemLine raw with
       | .blank => some none
       | .term => none
       | .item t => some (some t)) := by
  unfold classifyItemLine
  cases hs : wstrStrip raw with
  | nil => simp [scanItem]
  | cons c t =>
    have hc := wstrStrip_head raw c t hs
    have hcsp : (c = ' ') = False := by
      simp only [isStripChar, Bool.or_eq_false_iff, decide_eq_false_iff_not] at hc
      simp [hc.2]
    by_cases h2 : c = '-'
    · subst h2
      simp only [scanItem, hcsp, if_false, if_pos rfl, if_true]
      rw [scanItem_true t]
      cases hd : t.dropWhile (fun x => x = ' ') with
      | nil => simp
      | cons d r => by_cases h3 : d = '-' <;> simp [h3]
    · simp [scanItem, hcsp, h2]

theorem handleList_eq (rest : List (List Char)) :
    handleList rest = ((rest.take (termIdx rest)).filterMap itemOf, termIdx rest) := by
  induction rest with
  | nil => simp [handleList, termIdx]
  | cons l rest ih =>
    have hcl := scanItem_classify l
    unfold handleList
    rw [hcl]
    cases hc : classifyItemLine l with
    | term =>
      have ht : isTermLine l = true := by simp [isTermLine, hc]
      simp [termIdx, List.findIdx_cons, ht]
    | blank =>
      have ht : isTermLine l = false := by simp [isTermLine, hc]
      have hio : itemOf l = none := by simp [itemOf, hc]
      simp only [termIdx, List.findIdx_cons, ht, cond_false]
      simp [ih, List.filterMap_cons, hio, termIdx]
    | item t =>
      have ht : isTermLine l = false := by simp [isTermLine, hc]
      have hio : itemOf l = some t := by simp [itemOf, hc]
      simp only [termIdx, List.findIdx_cons, ht, cond_false]
      simp [ih, List.filterMap_cons, hio, termIdx]

/-- C5 counterexample: `handleList` does **not** stop at the first line that
fails the claim's item pattern (spaces, one `-` marker, then item text).  In
the block `- alpha` / (empty line) / `- beta` / `other-setting value`, the
first pattern-failing line is the empty line at index 1, yet the scan consumes
it (and the item after it), collecting ["alpha", "beta"] and stopping only at
index 3 — so the claimed boundary condition is false. -/
theorem handleList_blank_line_cx :
    ([s2l "- alpha", ([] : List Char), s2l "- beta", s2l "other-setting value"].findIdx
        (fun l => !claimItemShape l)) = 1 ∧
    handleList [s2l "- alpha", ([] : List Char), s2l "- beta", s2l "other-setting value"] =
      ([s2l "alpha", s2l "beta"], 3) := by decide

/-- C5 amended: a list block stops at the first **malformed** line — one with
item content before any `-`, or a second `-` before the item text
(`classifyItemLine _ = .term`); lines that are empty after stripping or hold
only a lone `-` are consumed without contributing an item.  The collected
items are the `.item`-classified lines before that boundary, in line order,
and the loop resumes at exactly the boundary line (index `i + 1 + termIdx`),
which is then processed as a normal line exactly once — neither skipped nor
consumed twice. -/
theorem handleList_boundary
    (tbl : List ConfEntry) (fuel i : Nat) (line : List Char) (rest : List (List Char))
    (nm : List Char) (conf : ConfEntry)
    (hskip : skipLine line = false)
    (htok : splitOnChar ' ' (wstrStrip line) = [nm])
    (hconf : getConfiguration tbl nm = some conf)
    (hfmt : conf.format = ConfFormat.LIST_FORMAT)
    (hval : conf.validator = ValidatorKind.listk)
    (hargs : conf.args = WHEAT_ARGS_NO_LIMIT) :
    handleList rest = ((rest.take (termIdx rest)).filterMap itemOf, termIdx rest) ∧
    applyConfigLoop tbl (fuel + 1) i (line :: rest) =
      LineEvent.listCommit i conf.name ((rest.take (termIdx rest)).filterMap itemOf) ::
        applyConfigLoop tbl fuel (i + 1 + termIdx rest) (rest.drop (termIdx rest)) := by
  refine ⟨handleList_eq rest, ?_⟩
  rw [applyConfigLoop]
  rw [if_neg (by simp [hskip])]
  simp only [htok, List.headD, List.length_cons, List.length_nil]
  rw [hconf]
  simp only
  rw [if_pos ⟨by trivial, hfmt⟩]
  rw [if_neg (by rw [hargs]; simp [WHEAT_ARGS_NO_LIMIT])]
  rw [handleList_eq rest]
  rw [hval]

/-- C5 witness: the amended boundary theorem applied at the concrete Scenario-D
block `mylist` / `- alpha` / `- beta` / `other-setting value`: the two items
are committed in order and the loop resumes exactly at index 3, the
terminating normal line. -/
theorem handleList_boundary_witness :
    applyConfigLoop demoListTable 5 0
        [s2l "mylist", s2l "- alpha", s2l "- beta", s2l "other-setting value"] =
      LineEvent.listCommit 0 (s2l "mylist") [s2l "alpha", s2l "beta"] ::
        applyConfigLoop demoListTable 4 3 [s2l "other-setting value"] := by
  have h := (handleList_boundary demoListTable 4 0 (s2l "mylist")
      [s2l "- alpha", s2l "- beta", s2l "other-setting value"]
      (s2l "mylist") ⟨s2l "mylist", WHEAT_ARGS_NO_LIMIT, .listk, .null, .LIST_FORMAT⟩
      (by decide) (by decide) (by decide) rfl rfl rfl).2
  exact h.trans (by decide)

/-- C1 counterexample: a normal line whose value contains an embedded space —
`bind-addr 127.0.0.1 backlog`, which splits into three tokens — is **not**
repaired and validated; `applyConfig` rejects it with the arity error, because
the repair branch requires `args == 2` and its catenation loop starts at index
2, so it can never join anything. -/
theorem applyConfig_embedded_space_cx :
    applyConfig configTable (s2l "bind-addr 127.0.0.1 backlog") =
      [LineEvent.fatal 0 .incorrectArgs] ∧
    (splitOnChar ' ' (wstrStrip (s2l "bind-addr 127.0.0.1 backlog"))).length = 3 := by
  decide

/-- C1 amended: the repair branch is entered only when exactly two raw tokens
are present, and then its loop over indices `[2, args)` is empty, so
`repairArgs` never changes the token list; consequently any non-list line that
splits into three or more tokens and resolves to an entry of declared arity 2
(every shipped entry) is rejected with the arity error, not repaired. -/
theorem applyConfig_extra_tokens_rejected
    (tbl : List ConfEntry) (fuel i : Nat) (line : List Char) (rest : List (List Char))
    (conf : ConfEntry)
    (hskip : skipLine line = false)
    (hconf : getConfiguration tbl ((splitOnChar ' ' (wstrStrip line)).headD []) = some conf)
    (hargs : 3 ≤ (splitOnChar ' ' (wstrStrip line)).length)
    (harity : conf.args = 2) :
    (∀ (a : List (List Char)) (ca : Int), repairArgs a ca = a) ∧
    applyConfigLoop tbl (fuel + 1) i (line :: rest) =
      [LineEvent.fatal i .incorrectArgs] := by
  constructor
  · intro a ca
    unfold repairArgs
    by_cases h : ((a.length : Int) ≠ ca ∧ a.length = 2)
    · rw [if_pos h]
      rw [h.2]
      rfl
    · rw [if_neg h]
  · rw [applyConfigLoop]
    rw [if_neg (by simp [hskip])]
    simp only [hconf]
    rw [if_neg (by rintro ⟨h1, -⟩; omega)]
    rw [if_pos ⟨by rw [harity]; intro h; omega, by rw [harity]; decide⟩]

/-- C1 witness: the amended theorem applied to the concrete three-token line
`bind-addr 127.0.0.1 backlog` against the shipped registry. -/
theorem applyConfig_extra_tokens_rejected_witness :
    applyConfigLoop configTable 1 0 [s2l "bind-addr 127.0.0.1 backlog"] =
      [LineEvent.fatal 0 .incorrectArgs] :=
  (applyConfig_extra_tokens_rejected configTable 0 0 (s2l "bind-addr 127.0.0.1 backlog") []
    ⟨s2l "bind-addr", 2, .stringk, .notfree, .STRING_FORMAT⟩
    (by decide) (by decide) (by decide) rfl).2

theorem applyConfigLoop_no_list (tbl : List ConfEntry)
    (h : ∀ c ∈ tbl, c.format ≠ ConfFormat.LIST_FORMAT) :
    ∀ (fuel i : Nat) (lines : List (List Char)) (ev : LineEvent),
      ev ∈ applyConfigLoop tbl fuel i lines → isListCommit ev = false := by
  intro fuel
  induction fuel with
  | zero =>
    intro i lines ev hev
    simp [applyConfigLoop] at hev
  | succ fuel ih =>
    intro i lines ev hev
    cases lines with
    | nil => simp [applyConfigLoop] at hev
    | cons line rest =>
      rw [applyConfigLoop] at hev
      by_cases hs : skipLine line = true
      · rw [if_pos hs] at hev
        rcases List.mem_cons.mp hev with rfl | hmem
        · rfl
        · exact ih (i + 1) rest ev hmem
      · rw [if_neg hs] at hev
        simp only at hev
        cases hc : getConfiguration tbl ((splitOnChar ' ' (wstrStrip line)).headD []) with
        | none =>
          rw [hc] at hev
          simp only [List.mem_singleton] at hev
          subst hev
          rfl
        | some conf =>
          have hmem : conf ∈ tbl := List.mem_of_find?_eq_some hc
          have hfmt := h conf hmem
          rw [hc] at hev
          simp only at hev
          rw [if_neg (by rintro ⟨-, h2⟩; exact hfmt h2)] at hev
          by_cases ha : ((splitOnChar ' ' (wstrStrip line)).length : Int) ≠ conf.args ∧
              conf.args ≠ WHEAT_ARGS_NO_LIMIT
          · rw [if_pos ha] at hev
            simp only [List.mem_singleton] at hev
            subst hev
            rfl
          · rw [if_neg ha] at hev
            cases hv : runValidator conf ((splitOnChar ' ' (wstrStrip line)).getD 1 []) with
            | none =>
              rw [hv] at hev
              simp only [List.mem_singleton] at hev
              subst hev
              rfl
            | some v =>
              rw [hv] at hev
              rcases List.mem_cons.mp hev with rfl | hmem2
              · rfl
              · exact ih (i + 1) rest ev hmem2

/-- C10: no entry of the shipped registry has the LIST display kind, and
therefore the apply pipeline's list-block branch is unreachable on every
configuration text — no run of the loop ever produces a list commit, so every
line resolving to a registered entry is handled as a normal line. -/
theorem configTable_no_list :
    (configTable.all fun c => c.format != ConfFormat.LIST_FORMAT) = true ∧
    ∀ (fuel i : Nat) (lines : List (List Char)) (ev : LineEvent),
      ev ∈ applyConfigLoop configTable fuel i lines → isListCommit ev = false := by
  refine ⟨by decide, ?_⟩
  exact applyConfigLoop_no_list configTable (by decide)

/-- C10 witness: the no-list-commit theorem applied to a concrete run — the
line `daemon on` against the shipped registry produces a plain commit event,
which is not a list commit. -/
theorem configTable_no_list_witness :
    isListCommit (LineEvent.commit 0 (s2l "daemon") (ConfValue.boolv true)) = false :=
  configTable_no_list.2 1 0 [s2l "daemon on"]
    (LineEvent.commit 0 (s2l "daemon") (ConfValue.boolv true)) (by decide)
